import Mathlib

/-!
Shallow embedding of the mac-ip session store (`mac_update_wsgi.py` and
`mac_db_parser.py`).

Modelling choices:
* MySQL table `macdb` is a list of `SessionRecord` in insertion order; the
  `UPDATE ... WHERE` statements become maps over that list.
* Redis is modelled by association lists keyed by the literal redis key
  strings.  The scalar keyspace is split into the `...-last_update` entries
  and the `...-known_connected` entries; the two suffixes are distinct, so
  the split is collision-free.
* Wall-clock readings inside one call (`datetime.datetime.now()`,
  `time.time()`) are identified and passed in as one rational `now`.
* The two `random.random()` draws of `update_session` are passed in as the
  probability draw `r` and the already-scaled jitter `j` (for
  `random.random() * 20`).
* Python exceptions are modelled with `Except String`.
-/

namespace MacDb

/-- Python `s.split(sep)` for a one-character separator: splits on every
occurrence and keeps empty fragments, so `"".split(sep) = [""]`. -/
def pySplit (sep : Char) : List Char → List (List Char)
  | [] => [[]]
  | c :: rest =>
    match pySplit sep rest with
    | [] => [[]]
    | h :: t => if c == sep then [] :: h :: t else (c :: h) :: t

/-- ASCII whitespace stripped by Python 2 `str.strip()`. -/
def isSpaceChar (c : Char) : Bool :=
  c == ' ' || c == '\t' || c == '\n' || c == '\r' || c == '\x0b' || c == '\x0c'

/-- Python `str.strip()`. -/
def pyStrip (l : List Char) : List Char :=
  ((l.dropWhile isSpaceChar).reverse.dropWhile isSpaceChar).reverse

/-- Python `s.replace(c, "")` for a one-character pattern: removes every
occurrence. -/
def pyRemoveChar (c : Char) (l : List Char) : List Char :=
  l.filter (fun x => !(x == c))

/-- One row of the `macdb` MySQL table, fields in the column order of the
`INSERT INTO macdb VALUES (...)` statement in `open_session`:
mac, ip, server_hostname, start_time, end_time, known_connected. -/
structure SessionRecord where
  mac : String
  ip : String
  server_hostname : String
  start_time : ℚ
  end_time : Option ℚ
  known_connected : ℚ
  deriving DecidableEq, Repr

/-- One parsed `arp -an` line, the dict built by `MacDbParser.entries`. -/
structure ArpEntry where
  hostname : String
  ip : String
  mac : String
  interface : String
  deriving DecidableEq, Repr

/-- Observable side effects of the engine, in program order: the statsd
counters that mark each call (`updateCall`, `openSessionCall`,
`closeSessionCall`, `postponeCall`), the individual MySQL statements
(`dbCloseByIp`, `dbCloseByMac`, `dbInsert`, `dbRefresh`) and the
`rpush` onto the ip-resolve work queue (`enqueue`). -/
inductive Event where
  | updateCall (ip mac : String)
  | openSessionCall (ip mac : String) (start : ℚ)
  | closeSessionCall (ip mac : String)
  | dbCloseByIp (ip : String) (t : ℚ)
  | dbCloseByMac (mac : String) (t : ℚ)
  | dbInsert (rec : SessionRecord)
  | dbRefresh (ip mac : String) (t : ℚ)
  | postponeCall (ip mac : String)
  | enqueue (ip : String)
  deriving DecidableEq, Repr

/-- Lookup in a string-keyed association list (first match wins). -/
def lookupA {α : Type} : List (String × α) → String → Option α
  | [], _ => none
  | e :: rest, k => if e.1 == k then some e.2 else lookupA rest k

/-- Store a value under a key, replacing any existing entry. -/
def putAssoc {α : Type} (l : List (String × α)) (k : String) (v : α) :
    List (String × α) :=
  l.filter (fun e => !(e.1 == k)) ++ [(k, v)]

/-- Drop a key. -/
def delAssoc {α : Type} (l : List (String × α)) (k : String) : List (String × α) :=
  l.filter (fun e => !(e.1 == k))

/-- Lookup in the redis set keyspace. -/
def getSet (rs : List (String × List String)) (k : String) : Option (List String) :=
  lookupA rs k

/-- Store a redis set under a key. -/
def putSet (rs : List (String × List String)) (k : String) (v : List String) :
    List (String × List String) :=
  putAssoc rs k v

/-- Redis `DEL` on a set key. -/
def delKey (rs : List (String × List String)) (k : String) :
    List (String × List String) :=
  delAssoc rs k

/-- Redis `RENAME`: fails (`none`) when the source key does not exist,
otherwise moves the value, overwriting the destination. -/
def renameKey (rs : List (String × List String)) (src dst : String) :
    Option (List (String × List String)) :=
  match getSet rs src with
  | some v => some (putSet (delKey rs src) dst v)
  | none => none

/-- Lookup in the redis scalar keyspace. -/
def getScalar (l : List (String × ℚ)) (k : String) : Option ℚ :=
  lookupA l k

/-- Redis `SET` on a scalar key. -/
def putScalar (l : List (String × ℚ)) (k : String) (v : ℚ) : List (String × ℚ) :=
  putAssoc l k v

/-- Redis `DEL` on a scalar key. -/
def delScalar (l : List (String × ℚ)) (k : String) : List (String × ℚ) :=
  delAssoc l k

/-- Redis `SADD` on the value of a set: a member already present is not
added again. -/
def saddList (l : List String) (v : String) : List String :=
  if l.contains v then l else l ++ [v]

/-- The redis keyspace used by the engine: the presence sets
(`macdb-connected-...` and its `-tmp` variant), the debounce scalars split
by their two distinct key suffixes, and the `ip-resolve-queue` list. -/
structure RedisState where
  sets : List (String × List String)
  lastUpdateVals : List (String × ℚ)
  knownConnectedVals : List (String × ℚ)
  queue : List String
  deriving DecidableEq, Repr

/-- Whole mutable world of one `MacDbUpdate` run: the `macdb` table plus
redis. -/
structure EngineState where
  db : List SessionRecord
  redis : RedisState
  deriving DecidableEq, Repr

/-- State with empty table and empty redis. -/
def emptyState : EngineState :=
  { db := [], redis := { sets := [], lastUpdateVals := [], knownConnectedVals := [], queue := [] } }

/-- Redis key `"macdb-connected-%s" % server_hostname`. -/
def connectedKey (host : String) : String := "macdb-connected-" ++ host

/-- Redis key of the in-flight cycle set (`redis_key + "-tmp"`). -/
def tmpKey (host : String) : String := connectedKey host ++ "-tmp"

/-- `"macdb-update-tmp-%s-%s-%s-" % (server_hostname, ip_addr, mac)`. -/
def updTmpBase (host ip mac : String) : String :=
  "macdb-update-tmp-" ++ host ++ "-" ++ ip ++ "-" ++ mac ++ "-"

/-- Redis key of the debounce timestamp (`... + "last_update"`). -/
def luKey (host ip mac : String) : String := updTmpBase host ip mac ++ "last_update"

/-- Redis key of the deferred refresh value (`... + "known_connected"`). -/
def kcKey (host ip mac : String) : String := updTmpBase host ip mac ++ "known_connected"

/-- Replace the set keyspace of a state. -/
def withSets (s : EngineState) (sets2 : List (String × List String)) : EngineState :=
  { s with redis := { s.redis with sets := sets2 } }

/-- Replace the deferred-value keyspace of a state. -/
def withKC (s : EngineState) (d : List (String × ℚ)) : EngineState :=
  { s with redis := { s.redis with knownConnectedVals := d } }

/-- Everything observable about a state except the deferred
`known_connected` scalars. -/
def obsOf (s : EngineState) :
    List SessionRecord × List (String × List String) × List (String × ℚ) × List String :=
  (s.db, s.redis.sets, s.redis.lastUpdateVals, s.redis.queue)

/-- `UPDATE macdb SET end_time=t WHERE <c>` as a map over the table. -/
def closeIf (c : SessionRecord → Bool) (t : ℚ) (db : List SessionRecord) :
    List SessionRecord :=
  db.map fun r => if c r then { r with end_time := some t } else r

/-- `UPDATE macdb SET end_time=now WHERE ip=%s and server_hostname=%s and
end_time is NULL`. -/
def closeOpenByIp (host ip : String) (t : ℚ) (db : List SessionRecord) :
    List SessionRecord :=
  closeIf (fun r => r.ip == ip && r.server_hostname == host && r.end_time.isNone) t db

/-- `UPDATE macdb SET end_time=now WHERE mac=%s and server_hostname=%s and
end_time is NULL`. -/
def closeOpenByMac (host mac : String) (t : ℚ) (db : List SessionRecord) :
    List SessionRecord :=
  closeIf (fun r => r.mac == mac && r.server_hostname == host && r.end_time.isNone) t db

/-- The combined effect of the two close statements: one pass that closes
every open record of the host matching the ip or the mac (two independent
filters). -/
def closeBoth (host ip mac : String) (t : ℚ) (db : List SessionRecord) :
    List SessionRecord :=
  db.map fun r =>
    if r.server_hostname == host && r.end_time.isNone && (r.ip == ip || r.mac == mac)
    then { r with end_time := some t } else r

/-- Per-record effect of `UPDATE macdb SET known_connected=%s WHERE ip=%s
and mac=%s and server_hostname=%s` — note: no `end_time is NULL` filter. -/
def refreshFn (host ip mac : String) (now : ℚ) (r : SessionRecord) : SessionRecord :=
  if r.ip == ip && r.mac == mac && r.server_hostname == host
  then { r with known_connected := now } else r

/-- The refresh statement over the whole table. -/
def refreshKnown (host ip mac : String) (now : ℚ) (db : List SessionRecord) :
    List SessionRecord :=
  db.map (refreshFn host ip mac now)

/-- `MacDbUpdate.open_session`: close open rows by ip, close open rows by
mac, insert the fresh row, then rpush the ip on `ip-resolve-queue`. -/
def open_session (host ip mac : String) (start_time : ℚ) (end_time : Option ℚ)
    (now : ℚ) (s : EngineState) : EngineState × List Event :=
  let rec0 : SessionRecord :=
    { mac := mac, ip := ip, server_hostname := host, start_time := start_time,
      end_time := end_time, known_connected := now }
  ({ s with
      db := closeOpenByMac host mac now (closeOpenByIp host ip now s.db) ++ [rec0],
      redis := { s.redis with queue := s.redis.queue ++ [ip] } },
   [Event.openSessionCall ip mac start_time, Event.dbCloseByIp ip now,
    Event.dbCloseByMac mac now, Event.dbInsert rec0, Event.enqueue ip])

/-- `MacDbUpdate.close_session`: the `end_time` argument is bound but both
UPDATE statements interpolate `now`. -/
def close_session (host ip mac : String) (now : ℚ) (end_time : Option ℚ)
    (s : EngineState) : EngineState × List Event :=
  let _end_time := end_time.getD now
  ({ s with db := closeOpenByMac host mac now (closeOpenByIp host ip now s.db) },
   [Event.closeSessionCall ip mac, Event.dbCloseByIp ip now, Event.dbCloseByMac mac now])

/-- `MacDbUpdate.update_session`: debounced refresh of `known_connected`.
`r` is the probability draw and `j` the scaled jitter draw. -/
def update_session (host ip mac : String) (now r j : ℚ) (s : EngineState) :
    EngineState × List Event :=
  let last_update := (getScalar s.redis.lastUpdateVals (luKey host ip mac)).getD 0
  if r < 18 / 100 ∨ now - last_update > 120 + j then
    ({ s with
        db := refreshKnown host ip mac now s.db,
        redis := { s.redis with
          knownConnectedVals := delScalar s.redis.knownConnectedVals (kcKey host ip mac),
          lastUpdateVals := putScalar s.redis.lastUpdateVals (luKey host ip mac) now } },
     [Event.dbRefresh ip mac now])
  else
    ({ s with
        redis := { s.redis with
          knownConnectedVals := putScalar s.redis.knownConnectedVals (kcKey host ip mac) now } },
     [Event.postponeCall ip mac])

/-- `sismember` of the presence key on the ACTIVE set (a missing key is the
empty set). -/
def memberActive (s : EngineState) (host key : String) : Bool :=
  ((getSet s.redis.sets (connectedKey host)).getD []).contains key

/-- `MacDbUpdate.update`: classify the entry against ACTIVE, then `sadd`
its presence key `"%s_%s" % (ip, mac)` into the `-tmp` (PENDING) set. -/
def update (host : String) (details : ArpEntry) (now r j : ℚ) (s : EngineState) :
    EngineState × List Event :=
  let ip_addr := details.ip
  let mac := details.mac
  let redis_val := ip_addr ++ "_" ++ mac
  let branch :=
    if memberActive s host redis_val then update_session host ip_addr mac now r j s
    else open_session host ip_addr mac now none now s
  let s1 := branch.1
  ({ s1 with
      redis := { s1.redis with
        sets := putSet s1.redis.sets (tmpKey host)
          (saddList ((getSet s1.redis.sets (tmpKey host)).getD []) redis_val) } },
   Event.updateCall ip_addr mac :: branch.2)

/-- `ip_mac.split("_")` unpacked into exactly two names; any other shape
raises a `ValueError`. -/
def splitKeyOpt (k : String) : Option (String × String) :=
  match pySplit '_' k.data with
  | [a, b] => some (String.mk a, String.mk b)
  | _ => none

/-- The close loop of `finish`: `close_session` on each presence key. -/
def closeAll (host : String) (now : ℚ) : List String → EngineState →
    Except String (EngineState × List Event)
  | [], s => .ok (s, [])
  | k :: ks, s =>
    match splitKeyOpt k with
    | none => .error "ValueError"
    | some (ip_addr, mac) =>
      let step := close_session host ip_addr mac now none s
      match closeAll host now ks step.1 with
      | .error e => .error e
      | .ok (s2, evs) => .ok (s2, step.2 ++ evs)

/-- `MacDbUpdate.finish`: the four-way case split on the existence of the
ACTIVE and PENDING sets. -/
def finish (host : String) (now : ℚ) (s : EngineState) :
    Except String (EngineState × List Event) :=
  match getSet s.redis.sets (connectedKey host) with
  | none =>
    match getSet s.redis.sets (tmpKey host) with
    | some _ =>
      match renameKey s.redis.sets (tmpKey host) (connectedKey host) with
      | some sets2 => .ok (withSets s sets2, [])
      | none => .error "redis rename: no such key"
    | none => .ok (s, [])
  | some a =>
    match getSet s.redis.sets (tmpKey host) with
    | some p =>
      match closeAll host now (a.filter fun k => !(p.contains k)) s with
      | .error e => .error e
      | .ok (s1, evs) =>
        match renameKey s1.redis.sets (tmpKey host) (connectedKey host) with
        | some sets2 => .ok (withSets s1 sets2, evs)
        | none => .error "redis rename: no such key"
    | none =>
      match closeAll host now a s with
      | .error e => .error e
      | .ok (s1, evs) =>
        .ok (withSets s1 (delKey s1.redis.sets (connectedKey host)), evs)

/-- The wsgi entry loop `for mac in macs.entries: ...` with the
`"(incomplete)"` sentinel skipped; each processed entry consumes its own
wall-clock reading and random draws. -/
def runEntriesLoop (host : String) : List (ArpEntry × ℚ × ℚ × ℚ) → EngineState →
    EngineState × List Event
  | [], s => (s, [])
  | (e, now, r, j) :: rest, s =>
    if e.mac == "(incomplete)" then runEntriesLoop host rest s
    else
      let step := update host e now r j s
      let tail := runEntriesLoop host rest step.1
      (tail.1, step.2 ++ tail.2)

/-- One externally visible engine operation, with its wall-clock reading
and (for `update`) its random draws. -/
inductive Op where
  | upd (host : String) (e : ArpEntry) (now r j : ℚ)
  | fin (host : String) (now : ℚ)
  deriving DecidableEq, Repr

/-- Run a sequence of engine operations, propagating any exception. -/
def runOps : List Op → EngineState → Except String (EngineState × List Event)
  | [], s => .ok (s, [])
  | op :: ops, s =>
    let step : Except String (EngineState × List Event) :=
      match op with
      | .upd host e now r j => .ok (update host e now r j s)
      | .fin host now => finish host now s
    match step with
    | .error e => .error e
    | .ok (s1, ev1) =>
      match runOps ops s1 with
      | .error e => .error e
      | .ok (s2, evs) => .ok (s2, ev1 ++ evs)

/-- The `MacDbParser` object: its constructor argument and the `_entries`
attribute, `none` while the attribute has never been assigned (reading it
then raises `AttributeError`). -/
structure MacDbParser where
  afile : List String
  _entries : Option (List ArpEntry)
  deriving DecidableEq, Repr

/-- `line.strip().split(" ")`. -/
def tokensOf (line : String) : List (List Char) :=
  pySplit ' ' (pyStrip line.data)

/-- One iteration of the parsing loop: `none` when the line has fewer than
six space-separated tokens. -/
def parseLine (line : String) : Option ArpEntry :=
  let toks := tokensOf line
  if toks.length < 6 then none
  else some
    { hostname := String.mk (toks.getD 0 [])
      ip := String.mk (pyRemoveChar ')' (pyRemoveChar '(' (toks.getD 1 [])))
      mac := String.mk (toks.getD 3 [])
      interface := String.mk (toks.getD 5 []) }

/-- The parsing loop of the `entries` property.  Returns the final value of
the `self._entries` cache and the returned list: on a malformed line the
loop returns `[]` while the cache keeps the entries appended so far. -/
def entriesLoop : List String → List ArpEntry → List ArpEntry × List ArpEntry
  | [], acc => (acc, acc)
  | l :: ls, acc =>
    match parseLine l with
    | none => (acc, [])
    | some e => entriesLoop ls (acc ++ [e])

/-- The list the `entries` property hands back when computed on a fresh
cache. -/
def entriesReturn (lines : List String) : List ArpEntry :=
  (entriesLoop lines []).2

/-- The body of the `entries` property: reading the unset `_entries`
attribute raises `AttributeError`; a cached non-empty list is returned
as-is; otherwise the file is parsed. -/
def entriesBody (self : MacDbParser) : Except String (MacDbParser × List ArpEntry) :=
  match self._entries with
  | none => .error "AttributeError"
  | some cached =>
    if !cached.isEmpty then .ok (self, cached)
    else
      let res := entriesLoop self.afile []
      .ok ({ self with _entries := some res.1 }, res.2)

/-- `MacDbParser.__init__`: stores the file, then evaluates the `entries`
property and assigns the result to `self._entries`. -/
def MacDbParser.init (afile : List String) : Except String MacDbParser :=
  let self0 : MacDbParser := { afile := afile, _entries := none }
  match entriesBody self0 with
  | .error e => .error e
  | .ok (self1, v) => .ok { self1 with _entries := some v }

/-- Character class `[A-Z\d-]` of the hostname regex under `re.IGNORECASE`
(Python 2 byte semantics, so ASCII only). -/
def allowedHostChar (c : Char) : Bool :=
  ('A' ≤ c && c ≤ 'Z') || ('a' ≤ c && c ≤ 'z') || ('0' ≤ c && c ≤ '9') || c == '-'

/-- `re.match("(?!-)[A-Z\d-]{1,63}(?<!-)$", label, re.IGNORECASE)` as a
boolean: Python's `$` also matches just before one trailing newline, so a
single trailing `'\n'` is tolerated. -/
def validLabel (l : List Char) : Bool :=
  let t := match l.getLast? with
    | some c => if c == '\n' then l.dropLast else l
    | none => l
  decide (1 ≤ t.length) && decide (t.length ≤ 63) && t.all allowedHostChar &&
    (match t.head? with | some c => !(c == '-') | none => true) &&
    (match t.getLast? with | some c => !(c == '-') | none => true)

/-- `is_valid_hostname`. -/
def is_valid_hostname (hostname : String) : Bool :=
  if hostname.data.length > 255 then false
  else (pySplit '.' hostname.data).all validLabel

/-- The query-string scan of `application`: split on `&`, keep items that
split on `=` into exactly two parts with key `server` and a valid value;
the last valid one wins, else the hostname stays `False`. -/
def findHostname (qs : String) : Option String :=
  (pySplit '&' qs.data).foldl
    (fun acc item =>
      match pySplit '=' item with
      | [k, v] =>
        if String.mk k == "server" && is_valid_hostname (String.mk v)
        then some (String.mk v) else acc
      | _ => acc)
    none

/-- Decidable form of "this query item does not provide a valid `server`
value". -/
def serverItemInvalid (item : List Char) : Bool :=
  match pySplit '=' item with
  | [k, v] => !(String.mk k == "server") || !(is_valid_hostname (String.mk v))
  | _ => true

/-- The wsgi `application`: identity validation, parser construction, the
update loop, `finish`, and the echoed response.  Everything after the
parser construction is unreachable because the constructor always raises
(see the C7 theorem); the echoed body string is rendered with `reprStr`. -/
def application (qs : String) (input_lines : List String)
    (rand : List (ℚ × ℚ × ℚ)) (nowF : ℚ) (s : EngineState) :
    Except String (List String × EngineState × List Event) :=
  match findHostname qs with
  | none => .ok (["Invalid hostname"], s, [])
  | some host =>
    match MacDbParser.init input_lines with
    | .error e => .error e
    | .ok macs =>
      match entriesBody macs with
      | .error e => .error e
      | .ok (_, entries) =>
        let loopRes := runEntriesLoop host (entries.zip rand) s
        match finish host nowF loopRes.1 with
        | .error e => .error e
        | .ok (s2, evs) =>
          .ok ([reprStr entries], s2, loopRes.2 ++ evs)

/-- Number of open rows of one reporting source in the table. -/
def openCountHost (host : String) (db : List SessionRecord) : Nat :=
  (db.filter fun r => r.server_hostname == host && r.end_time.isNone).length

/-- Open rows matching a record predicate. -/
def openCountBy (q : SessionRecord → Bool) (db : List SessionRecord) : Nat :=
  (db.filter fun r => q r && r.end_time.isNone).length

/-- Identity predicate "row of this source with this ip". -/
def qIp (host ip : String) (r : SessionRecord) : Bool :=
  r.server_hostname == host && r.ip == ip

/-- Identity predicate "row of this source with this mac". -/
def qMac (host mac : String) (r : SessionRecord) : Bool :=
  r.server_hostname == host && r.mac == mac

/-- The uniqueness invariant of the durable store: at most one open row per
(reportingSource, ip) and per (reportingSource, hardwareAddress). -/
def DbInvariant (db : List SessionRecord) : Prop :=
  ∀ host key, openCountBy (qIp host key) db ≤ 1 ∧ openCountBy (qMac host key) db ≤ 1

/-- Recognize the statsd marker of a `close_session` call. -/
def isCloseCall : Event → Bool
  | .closeSessionCall _ _ => true
  | _ => false

/-- The `close_session` call markers of a trace. -/
def closeCallsOf (evs : List Event) : List Event :=
  evs.filter isCloseCall

/-- The close calls `finish` is expected to make for a list of presence
keys, each key split into its ip and mac parts. -/
def expectedCloseCalls (keys : List String) : List Event :=
  keys.filterMap fun k => (splitKeyOpt k).map fun pr => Event.closeSessionCall pr.1 pr.2

/-! Helper lemmas about the association-list store model. -/

theorem lookupA_append_of_none {α : Type} {l1 : List (String × α)}
    (l2 : List (String × α)) {k : String} (h : lookupA l1 k = none) :
    lookupA (l1 ++ l2) k = lookupA l2 k := by
  induction l1 with
  | nil => simp
  | cons e rest ih =>
    by_cases he : e.1 = k
    · simp [lookupA, he] at h
    · simp only [lookupA, List.cons_append] at h ⊢
      simp only [beq_iff_eq, he, if_false] at h ⊢
      exact ih h

theorem lookupA_append_of_some {α : Type} {l1 : List (String × α)}
    (l2 : List (String × α)) {k : String} {v : α} (h : lookupA l1 k = some v) :
    lookupA (l1 ++ l2) k = some v := by
  induction l1 with
  | nil => simp [lookupA] at h
  | cons e rest ih =>
    by_cases he : e.1 = k
    · simp only [lookupA, List.cons_append, beq_iff_eq, he, if_true] at h ⊢
      exact h
    · simp only [lookupA, List.cons_append, beq_iff_eq, he, if_false] at h ⊢
      exact ih h

theorem lookupA_filter_self {α : Type} (l : List (String × α)) (k : String) :
    lookupA (l.filter fun e => !(e.1 == k)) k = none := by
  induction l with
  | nil => simp [lookupA]
  | cons e rest ih =>
    by_cases he : e.1 = k
    · simpa [List.filter_cons, he] using ih
    · simpa [List.filter_cons, lookupA, he] using ih

theorem lookupA_filter_ne {α : Type} (l : List (String × α)) {k k' : String}
    (h : ¬ k' = k) :
    lookupA (l.filter fun e => !(e.1 == k)) k' = lookupA l k' := by
  induction l with
  | nil => simp
  | cons e rest ih =>
    by_cases he2 : e.1 = k'
    · have hek : ¬ e.1 = k := fun hc => h (he2.symm.trans hc)
      have hb : (!(e.1 == k)) = true := by simp [hek]
      rw [List.filter_cons, if_pos hb]
      simp [lookupA, he2]
    · by_cases he : e.1 = k
      · have hb : (!(e.1 == k)) = false := by simp [he]
        rw [List.filter_cons]
        simp only [hb, Bool.false_eq_true, if_false]
        rw [ih]
        simp [lookupA, he2]
      · have hb : (!(e.1 == k)) = true := by simp [he]
        rw [List.filter_cons, if_pos hb]
        simp only [lookupA, beq_iff_eq, he2, if_false]
        exact ih

theorem lookupA_putAssoc_same {α : Type} (l : List (String × α)) (k : String) (v : α) :
    lookupA (putAssoc l k v) k = some v := by
  rw [putAssoc, lookupA_append_of_none _ (lookupA_filter_self l k)]
  simp [lookupA]

theorem lookupA_putAssoc_ne {α : Type} (l : List (String × α)) {k k' : String}
    (v : α) (h : ¬ k' = k) :
    lookupA (putAssoc l k v) k' = lookupA l k' := by
  rw [putAssoc]
  cases hg : lookupA (l.filter fun e => !(e.1 == k)) k' with
  | some w =>
    rw [lookupA_append_of_some _ hg, ← lookupA_filter_ne l h, hg]
  | none =>
    rw [lookupA_append_of_none _ hg]
    rw [lookupA_filter_ne l h] at hg
    have h2 : ¬ k = k' := fun hc => h hc.symm
    simp [lookupA, h2, hg]

theorem lookupA_delAssoc_same {α : Type} (l : List (String × α)) (k : String) :
    lookupA (delAssoc l k) k = none :=
  lookupA_filter_self l k

theorem lookupA_delAssoc_ne {α : Type} (l : List (String × α)) {k k' : String}
    (h : ¬ k' = k) :
    lookupA (delAssoc l k) k' = lookupA l k' :=
  lookupA_filter_ne l h

theorem connectedKey_ne_tmpKey (host : String) : ¬ connectedKey host = tmpKey host := by
  intro h
  have hd := congrArg (fun s => s.data.length) h
  have h4 : ("-tmp" : String).data.length = 4 := rfl
  simp only [tmpKey, String.data_append, List.length_append, h4] at hd
  omega

theorem tmpKey_ne_connectedKey (host : String) : ¬ tmpKey host = connectedKey host :=
  fun h => connectedKey_ne_tmpKey host h.symm

/-! The two sequential close statements equal one combined pass. -/

theorem closeBoth_eq (host ip mac : String) (t : ℚ) (db : List SessionRecord) :
    closeOpenByMac host mac t (closeOpenByIp host ip t db) = closeBoth host ip mac t db := by
  induction db with
  | nil => rfl
  | cons r rest ih =>
    simp only [closeOpenByIp, closeOpenByMac, closeIf, closeBoth, List.map_cons] at ih ⊢
    rw [ih]
    by_cases hh : r.server_hostname = host
    · by_cases ho : r.end_time = none
      · by_cases hi : r.ip = ip
        · simp [hh, ho, hi, Option.isNone]
        · by_cases hm : r.mac = mac
          · simp [hh, ho, hi, hm, Option.isNone]
          · simp [hh, ho, hi, hm, Option.isNone]
      · have ho' : r.end_time.isNone = false := by
          cases het : r.end_time with
          | none => exact absurd het ho
          | some t0 => rfl
        simp [hh, ho', ho]
      -- remaining cases handled below
    · have hh' : (r.server_hostname == host) = false := by simp [hh]
      simp [hh']

/-! Counting open rows. -/

theorem openCountBy_cons (q : SessionRecord → Bool) (r : SessionRecord)
    (rest : List SessionRecord) :
    openCountBy q (r :: rest) =
      (if (q r && r.end_time.isNone) = true then 1 else 0) + openCountBy q rest := by
  simp only [openCountBy, List.filter_cons]
  split
  · simp [Nat.add_comm]
  · simp

theorem openCountBy_append (q : SessionRecord → Bool) (db1 db2 : List SessionRecord) :
    openCountBy q (db1 ++ db2) = openCountBy q db1 + openCountBy q db2 := by
  simp [openCountBy, List.filter_append]

theorem closeIf_cons (c : SessionRecord → Bool) (t : ℚ) (r : SessionRecord)
    (rest : List SessionRecord) :
    closeIf c t (r :: rest) =
      (if c r = true then { r with end_time := some t } else r) :: closeIf c t rest := rfl

theorem openCountBy_closeIf_le (q c : SessionRecord → Bool) (t : ℚ)
    (db : List SessionRecord) :
    openCountBy q (closeIf c t db) ≤ openCountBy q db := by
  induction db with
  | nil => exact Nat.le_refl 0
  | cons r rest ih =>
    rw [closeIf_cons, openCountBy_cons, openCountBy_cons]
    by_cases hc : c r = true
    · rw [if_pos hc]
      have hz : (q { r with end_time := some t } &&
          ({ r with end_time := some t } : SessionRecord).end_time.isNone) = false := by
        simp
      rw [hz]
      simp only [Bool.false_eq_true, if_false]
      have h0 : (0 : Nat) ≤ if (q r && r.end_time.isNone) = true then 1 else 0 :=
        Nat.zero_le _
      omega
    · simp only [hc, Bool.false_eq_true, if_false]
      omega

theorem openCountBy_closeIf_zero (q c : SessionRecord → Bool) (t : ℚ)
    (db : List SessionRecord)
    (hc : ∀ r, q r = true → r.end_time.isNone = true → c r = true) :
    openCountBy q (closeIf c t db) = 0 := by
  induction db with
  | nil => rfl
  | cons r rest ih =>
    rw [closeIf_cons, openCountBy_cons, ih]
    by_cases hcr : c r = true
    · rw [if_pos hcr]
      have hz : (q { r with end_time := some t } &&
          ({ r with end_time := some t } : SessionRecord).end_time.isNone) = false := by
        simp
      simp [hz]
    · simp only [hcr, if_false]
      have hz : (q r && r.end_time.isNone) = false := by
        cases hq1 : q r with
        | false => simp
        | true =>
          cases ho : r.end_time.isNone with
          | false => simp
          | true => exact absurd (hc r hq1 ho) hcr
      simp [hz]

theorem openCountBy_map_keep (q : SessionRecord → Bool)
    (f : SessionRecord → SessionRecord) (db : List SessionRecord)
    (hf : ∀ r, q (f r) = q r ∧ (f r).end_time = r.end_time) :
    openCountBy q (db.map f) = openCountBy q db := by
  induction db with
  | nil => rfl
  | cons r rest ih =>
    rw [List.map_cons, openCountBy_cons, openCountBy_cons, ih, (hf r).1, (hf r).2]

theorem closeIf_eq_self (c : SessionRecord → Bool) (t : ℚ) (db : List SessionRecord)
    (h : ∀ r ∈ db, c r = false) : closeIf c t db = db := by
  induction db with
  | nil => rfl
  | cons r rest ih =>
    rw [closeIf_cons]
    have hr : c r = false := h r (List.mem_cons_self r rest)
    rw [hr]
    simp only [Bool.false_eq_true, if_false]
    rw [ih fun r' hr' => h r' (List.mem_cons_of_mem r hr')]

/-! Preservation of the at-most-one-open-row invariant. -/

theorem openCountBy_singleton_le (q : SessionRecord → Bool) (r : SessionRecord) :
    openCountBy q [r] ≤ 1 := by
  rw [openCountBy_cons]
  split <;> simp [openCountBy]

theorem openCountBy_singleton_zero (q : SessionRecord → Bool) (r : SessionRecord)
    (h : q r = false) : openCountBy q [r] = 0 := by
  rw [openCountBy_cons]
  simp [h, openCountBy]

theorem DbInvariant_closeDb (host ip mac : String) (t : ℚ) (db : List SessionRecord)
    (h : DbInvariant db) :
    DbInvariant (closeOpenByMac host mac t (closeOpenByIp host ip t db)) := by
  intro host' key
  have h1 : openCountBy (qIp host' key)
      (closeOpenByMac host mac t (closeOpenByIp host ip t db)) ≤
        openCountBy (qIp host' key) (closeOpenByIp host ip t db) :=
    openCountBy_closeIf_le _ _ _ _
  have h2 : openCountBy (qIp host' key) (closeOpenByIp host ip t db) ≤
      openCountBy (qIp host' key) db :=
    openCountBy_closeIf_le _ _ _ _
  have h3 : openCountBy (qMac host' key)
      (closeOpenByMac host mac t (closeOpenByIp host ip t db)) ≤
        openCountBy (qMac host' key) (closeOpenByIp host ip t db) :=
    openCountBy_closeIf_le _ _ _ _
  have h4 : openCountBy (qMac host' key) (closeOpenByIp host ip t db) ≤
      openCountBy (qMac host' key) db :=
    openCountBy_closeIf_le _ _ _ _
  have h5 := (h host' key).1
  have h6 := (h host' key).2
  exact ⟨by omega, by omega⟩

theorem DbInvariant_openDb (host ip mac : String) (st : ℚ) (et : Option ℚ) (now : ℚ)
    (db : List SessionRecord) (h : DbInvariant db) :
    DbInvariant (closeOpenByMac host mac now (closeOpenByIp host ip now db) ++
      [{ mac := mac, ip := ip, server_hostname := host, start_time := st,
         end_time := et, known_connected := now }]) := by
  intro host' key
  constructor
  · rw [openCountBy_append]
    by_cases hmatch : host' = host ∧ key = ip
    · obtain ⟨hh, hk⟩ := hmatch
      subst hh; subst hk
      have h1 : openCountBy (qIp host' key) (closeOpenByIp host' key now db) = 0 := by
        refine openCountBy_closeIf_zero _ _ _ _ ?_
        intro r hq ho
        simp only [qIp, Bool.and_eq_true, beq_iff_eq] at hq
        simp [hq.1, hq.2, ho]
      have h2 : openCountBy (qIp host' key)
          (closeOpenByMac host' mac now (closeOpenByIp host' key now db)) = 0 :=
        Nat.le_zero.mp (h1 ▸ openCountBy_closeIf_le _ _ _ _)
      have h3 := openCountBy_singleton_le (qIp host' key)
        { mac := mac, ip := key, server_hostname := host', start_time := st,
          end_time := et, known_connected := now }
      omega
    · have hq0 : qIp host' key
          { mac := mac, ip := ip, server_hostname := host, start_time := st,
            end_time := et, known_connected := now } = false := by
        rcases not_and_or.mp hmatch with hh | hk
        · have hh2 : ¬ host = host' := fun hc => hh hc.symm
          simp [qIp, hh2]
        · have hk2 : ¬ ip = key := fun hc => hk hc.symm
          simp [qIp, hk2]
      have h3 := openCountBy_singleton_zero (qIp host' key) _ hq0
      have h12 : openCountBy (qIp host' key)
          (closeOpenByMac host mac now (closeOpenByIp host ip now db)) ≤
            openCountBy (qIp host' key) db :=
        le_trans (openCountBy_closeIf_le _ _ _ _) (openCountBy_closeIf_le _ _ _ _)
      have h4 := (h host' key).1
      omega
  · rw [openCountBy_append]
    by_cases hmatch : host' = host ∧ key = mac
    · obtain ⟨hh, hk⟩ := hmatch
      subst hh; subst hk
      have h2 : openCountBy (qMac host' key)
          (closeOpenByMac host' key now (closeOpenByIp host' ip now db)) = 0 := by
        refine openCountBy_closeIf_zero _ _ _ _ ?_
        intro r hq ho
        simp only [qMac, Bool.and_eq_true, beq_iff_eq] at hq
        simp [hq.1, hq.2, ho]
      have h3 := openCountBy_singleton_le (qMac host' key)
        { mac := key, ip := ip, server_hostname := host', start_time := st,
          end_time := et, known_connected := now }
      omega
    · have hq0 : qMac host' key
          { mac := mac, ip := ip, server_hostname := host, start_time := st,
            end_time := et, known_connected := now } = false := by
        rcases not_and_or.mp hmatch with hh | hk
        · have hh2 : ¬ host = host' := fun hc => hh hc.symm
          simp [qMac, hh2]
        · have hk2 : ¬ mac = key := fun hc => hk hc.symm
          simp [qMac, hk2]
      have h3 := openCountBy_singleton_zero (qMac host' key) _ hq0
      have h12 : openCountBy (qMac host' key)
          (closeOpenByMac host mac now (closeOpenByIp host ip now db)) ≤
            openCountBy (qMac host' key) db :=
        le_trans (openCountBy_closeIf_le _ _ _ _) (openCountBy_closeIf_le _ _ _ _)
      have h4 := (h host' key).2
      omega

theorem DbInvariant_open_session (host ip mac : String) (st : ℚ) (et : Option ℚ)
    (now : ℚ) (s : EngineState) (h : DbInvariant s.db) :
    DbInvariant (open_session host ip mac st et now s).1.db :=
  DbInvariant_openDb host ip mac st et now s.db h

theorem DbInvariant_close_session (host ip mac : String) (now : ℚ) (et : Option ℚ)
    (s : EngineState) (h : DbInvariant s.db) :
    DbInvariant (close_session host ip mac now et s).1.db :=
  DbInvariant_closeDb host ip mac now s.db h

theorem DbInvariant_update_session (host ip mac : String) (now r j : ℚ)
    (s : EngineState) (h : DbInvariant s.db) :
    DbInvariant (update_session host ip mac now r j s).1.db := by
  rw [update_session]
  split
  · intro host' key
    have hmap : ∀ rec, qIp host' key (refreshFn host ip mac now rec) = qIp host' key rec ∧
        (refreshFn host ip mac now rec).end_time = rec.end_time := by
      intro rec
      rw [refreshFn]
      split <;> exact ⟨rfl, rfl⟩
    have hmap2 : ∀ rec, qMac host' key (refreshFn host ip mac now rec) = qMac host' key rec ∧
        (refreshFn host ip mac now rec).end_time = rec.end_time := by
      intro rec
      rw [refreshFn]
      split <;> exact ⟨rfl, rfl⟩
    refine ⟨?_, ?_⟩
    · rw [show (({ s with
          db := refreshKnown host ip mac now s.db,
          redis := { s.redis with
            knownConnectedVals := delScalar s.redis.knownConnectedVals (kcKey host ip mac),
            lastUpdateVals := putScalar s.redis.lastUpdateVals (luKey host ip mac) now } },
        [Event.dbRefresh ip mac now]) : EngineState × List Event).1.db =
          refreshKnown host ip mac now s.db from rfl]
      rw [refreshKnown, openCountBy_map_keep _ _ _ hmap]
      exact (h host' key).1
    · rw [show (({ s with
          db := refreshKnown host ip mac now s.db,
          redis := { s.redis with
            knownConnectedVals := delScalar s.redis.knownConnectedVals (kcKey host ip mac),
            lastUpdateVals := putScalar s.redis.lastUpdateVals (luKey host ip mac) now } },
        [Event.dbRefresh ip mac now]) : EngineState × List Event).1.db =
          refreshKnown host ip mac now s.db from rfl]
      rw [refreshKnown, openCountBy_map_keep _ _ _ hmap2]
      exact (h host' key).2
  · exact h

theorem DbInvariant_update (host : String) (e : ArpEntry) (now r j : ℚ)
    (s : EngineState) (h : DbInvariant s.db) :
    DbInvariant (update host e now r j s).1.db := by
  rw [update]
  simp only
  split
  · exact DbInvariant_update_session host e.ip e.mac now r j s h
  · exact DbInvariant_open_session host e.ip e.mac now none now s h

theorem DbInvariant_closeAll (host : String) (now : ℚ) (keys : List String) :
    ∀ (s s' : EngineState) (evs : List Event),
      closeAll host now keys s = .ok (s', evs) → DbInvariant s.db → DbInvariant s'.db := by
  induction keys with
  | nil =>
    intro s s' evs hok h
    rw [closeAll] at hok
    cases hok
    exact h
  | cons k ks ih =>
    intro s s' evs hok h
    rw [closeAll] at hok
    cases hsplit : splitKeyOpt k with
    | none => rw [hsplit] at hok; cases hok
    | some pr =>
      obtain ⟨ipp, macp⟩ := pr
      rw [hsplit] at hok
      simp only at hok
      cases hrest : closeAll host now ks (close_session host ipp macp now none s).1 with
      | error e => rw [hrest] at hok; cases hok
      | ok out =>
        rw [hrest] at hok
        cases hok
        exact ih _ _ _ (by rw [hrest]) (DbInvariant_close_session host ipp macp now none s h)

theorem DbInvariant_finish (host : String) (now : ℚ) (s s' : EngineState)
    (evs : List Event) (hok : finish host now s = .ok (s', evs))
    (h : DbInvariant s.db) : DbInvariant s'.db := by
  rw [finish] at hok
  cases ha : getSet s.redis.sets (connectedKey host) with
  | none =>
    rw [ha] at hok
    simp only at hok
    cases hp : getSet s.redis.sets (tmpKey host) with
    | none =>
      rw [hp] at hok
      simp only at hok
      cases hok
      exact h
    | some p =>
      rw [hp] at hok
      simp only at hok
      cases hr : renameKey s.redis.sets (tmpKey host) (connectedKey host) with
      | none => rw [hr] at hok; cases hok
      | some sets2 =>
        rw [hr] at hok
        cases hok
        exact h
  | some a =>
    rw [ha] at hok
    simp only at hok
    cases hp : getSet s.redis.sets (tmpKey host) with
    | none =>
      rw [hp] at hok
      simp only at hok
      cases hca : closeAll host now a s with
      | error e => rw [hca] at hok; cases hok
      | ok out =>
        obtain ⟨s1, evs1⟩ := out
        rw [hca] at hok
        simp only at hok
        cases hok
        exact DbInvariant_closeAll host now a s s1 evs (by rw [hca]) h
    | some p =>
      rw [hp] at hok
      simp only at hok
      cases hca : closeAll host now (a.filter fun k => !(p.contains k)) s with
      | error e => rw [hca] at hok; cases hok
      | ok out =>
        obtain ⟨s1, evs1⟩ := out
        rw [hca] at hok
        simp only at hok
        cases hr : renameKey s1.redis.sets (tmpKey host) (connectedKey host) with
        | none => rw [hr] at hok; cases hok
        | some sets2 =>
          rw [hr] at hok
          cases hok
          exact DbInvariant_closeAll host now _ s s1 evs (by rw [hca]) h

theorem DbInvariant_runOps (ops : List Op) :
    ∀ (s s' : EngineState) (evs : List Event),
      runOps ops s = .ok (s', evs) → DbInvariant s.db → DbInvariant s'.db := by
  induction ops with
  | nil =>
    intro s s' evs hok h
    rw [runOps.eq_def] at hok
    simp only at hok
    cases hok
    exact h
  | cons op ops ih =>
    intro s s' evs hok h
    rw [runOps.eq_def] at hok
    simp only at hok
    cases op with
    | upd host e now r j =>
      simp only at hok
      cases hrest : runOps ops (update host e now r j s).1 with
      | error er => rw [hrest] at hok; cases hok
      | ok out =>
        rw [hrest] at hok
        cases hok
        exact ih _ _ _ (by rw [hrest]) (DbInvariant_update host e now r j s h)
    | fin host now =>
      simp only at hok
      cases hfin : finish host now s with
      | error er => rw [hfin] at hok; cases hok
      | ok out1 =>
        rw [hfin] at hok
        simp only at hok
        cases hrest : runOps ops out1.1 with
        | error er => rw [hrest] at hok; cases hok
        | ok out =>
          rw [hrest] at hok
          cases hok
          exact ih _ _ _ (by rw [hrest])
            (DbInvariant_finish host now s out1.1 out1.2 (by rw [hfin]) h)

theorem DbInvariant_empty : DbInvariant ([] : List SessionRecord) := by
  intro host key
  exact ⟨Nat.zero_le 1, Nat.zero_le 1⟩

/-! Claim theorems. -/

/-- C3: starting from an empty store, every reachable state of any
sequence of update/finish operations has at most one open `SessionRecord`
per (reportingSource, ip) and per (reportingSource, hardwareAddress), and
each engine operation (openSession, closeSession, debounced refresh,
update, finish) preserves that invariant. -/
theorem open_sessions_unique_invariant :
    (∀ (ops : List Op) (s2 : EngineState) (evs : List Event),
        runOps ops emptyState = .ok (s2, evs) → DbInvariant s2.db) ∧
    (∀ (host ip mac : String) (st : ℚ) (et : Option ℚ) (now : ℚ) (s : EngineState),
        DbInvariant s.db → DbInvariant (open_session host ip mac st et now s).1.db) ∧
    (∀ (host ip mac : String) (now : ℚ) (et : Option ℚ) (s : EngineState),
        DbInvariant s.db → DbInvariant (close_session host ip mac now et s).1.db) ∧
    (∀ (host ip mac : String) (now r j : ℚ) (s : EngineState),
        DbInvariant s.db → DbInvariant (update_session host ip mac now r j s).1.db) ∧
    (∀ (host : String) (e : ArpEntry) (now r j : ℚ) (s : EngineState),
        DbInvariant s.db → DbInvariant (update host e now r j s).1.db) ∧
    (∀ (host : String) (now : ℚ) (s s2 : EngineState) (evs : List Event),
        DbInvariant s.db → finish host now s = .ok (s2, evs) → DbInvariant s2.db) := by
  refine ⟨?_, DbInvariant_open_session, ?_, DbInvariant_update_session,
    DbInvariant_update, ?_⟩
  · intro ops s2 evs hok
    exact DbInvariant_runOps ops emptyState s2 evs hok DbInvariant_empty
  · intro host ip mac now et s h
    exact DbInvariant_close_session host ip mac now et s h
  · intro host now s s2 evs h hok
    exact DbInvariant_finish host now s s2 evs hok h

/-- Witness for C3: a concrete one-update run from the empty store reaches
exactly the expected state, and the theorem yields its invariant. -/
theorem open_sessions_unique_invariant_witness :
    runOps [Op.upd "fw" ⟨"h1", "10", "aa", "em0"⟩ 5 1 0] emptyState =
      .ok (⟨[⟨"aa", "10", "fw", 5, none, 5⟩],
            ⟨[("macdb-connected-fw-tmp", ["10_aa"])], [], [], ["10"]⟩⟩,
           [Event.updateCall "10" "aa", Event.openSessionCall "10" "aa" 5,
            Event.dbCloseByIp "10" 5, Event.dbCloseByMac "aa" 5,
            Event.dbInsert ⟨"aa", "10", "fw", 5, none, 5⟩,
            Event.enqueue "10"]) ∧
    DbInvariant [⟨"aa", "10", "fw", 5, none, 5⟩] :=
  ⟨by rfl,
   open_sessions_unique_invariant.1
     [Op.upd "fw" ⟨"h1", "10", "aa", "em0"⟩ 5 1 0] _ _ (by rfl)⟩

/-- C10: `close_session` ignores its `end_time` argument — the call with an
explicit end time is state-for-state identical to the default call, and
both UPDATE statements stamp the wall-clock `now` of the call. -/
theorem close_session_ignores_end_time_arg (host ip mac : String) (now et : ℚ)
    (s : EngineState) :
    close_session host ip mac now (some et) s = close_session host ip mac now none s ∧
    (close_session host ip mac now (some et) s).1.db = closeBoth host ip mac now s.db :=
  ⟨rfl, closeBoth_eq host ip mac now s.db⟩

/-- C4: `open_session` closes every open row of the source matching the ip
and, independently, every open row matching the mac (one combined pass with
a disjunctive filter), appends the freshly inserted row, and pushes the ip
onto the resolve queue; the enqueue is the last emitted effect, after the
three store writes. -/
theorem open_session_contract (host ip mac : String) (st : ℚ) (et : Option ℚ)
    (now : ℚ) (s : EngineState) :
    (open_session host ip mac st et now s).1.db =
      closeBoth host ip mac now s.db ++ [⟨mac, ip, host, st, et, now⟩] ∧
    (open_session host ip mac st et now s).1.redis.queue = s.redis.queue ++ [ip] ∧
    (open_session host ip mac st et now s).2 =
      [Event.openSessionCall ip mac st, Event.dbCloseByIp ip now,
       Event.dbCloseByMac mac now, Event.dbInsert ⟨mac, ip, host, st, et, now⟩,
       Event.enqueue ip] ∧
    (open_session host ip mac st et now s).2.getLast? = some (Event.enqueue ip) :=
  ⟨congrArg (fun l => l ++ [(⟨mac, ip, host, st, et, now⟩ : SessionRecord)])
    (closeBoth_eq host ip mac now s.db), rfl, rfl, rfl⟩

/-! Parser claims. -/

theorem entriesLoop_malformed :
    ∀ (lines : List String), (∃ l ∈ lines, (tokensOf l).length < 6) →
      ∀ acc, (entriesLoop lines acc).2 = [] := by
  intro lines
  induction lines with
  | nil =>
    intro h acc
    obtain ⟨l, hl, _⟩ := h
    exact absurd hl (List.not_mem_nil l)
  | cons l0 ls ih =>
    intro h acc
    rw [entriesLoop]
    cases hp : parseLine l0 with
    | none => rfl
    | some e =>
      obtain ⟨l, hl, hlen⟩ := h
      rcases List.mem_cons.mp hl with rfl | hl2
      · have hnone : parseLine l = none := by
          simp only [parseLine]
          rw [if_pos hlen]
        rw [hnone] at hp
        cases hp
      · exact ih ⟨l, hl2, hlen⟩ (acc ++ [e])

/-- C7: constructing `MacDbParser` raises `AttributeError` for every input
file: `__init__` evaluates the `entries` property, whose first statement
reads the never-assigned `_entries` attribute, so normal construction never
produces an entry list. -/
theorem parser_init_raises (afile : List String) :
    MacDbParser.init afile = .error "AttributeError" := rfl

/-- C8: a snapshot containing any line with fewer than six space-separated
tokens makes the parsing loop abandon the whole batch and return zero
entries, and the wsgi update loop over that empty result performs no
update call (no state change, no events). -/
theorem malformed_line_empties_batch (lines : List String)
    (h : ∃ l ∈ lines, (tokensOf l).length < 6) :
    entriesReturn lines = [] ∧
    (∀ (host : String) (rand : List (ℚ × ℚ × ℚ)) (s : EngineState),
        runEntriesLoop host ((entriesReturn lines).zip rand) s = (s, [])) := by
  have hmain : entriesReturn lines = [] := entriesLoop_malformed lines h []
  refine ⟨hmain, ?_⟩
  intro host rand s
  rw [hmain]
  rfl

/-- Witness for C8 on a concrete malformed batch. -/
theorem malformed_line_empties_batch_witness :
    (∃ l ∈ ["bad line"], (tokensOf l).length < 6) ∧
    entriesReturn ["bad line"] = [] ∧
    runEntriesLoop "fw" ((entriesReturn ["bad line"]).zip [(1, 1, 1)]) emptyState =
      (emptyState, []) :=
  ⟨by decide, (malformed_line_empties_batch ["bad line"] (by decide)).1,
   (malformed_line_empties_batch ["bad line"] (by decide)).2 "fw" [(1, 1, 1)] emptyState⟩

/-! The deferred `known_connected` scalars are write-only: every operation
commutes with an arbitrary replacement of that keyspace. -/

theorem obsOf_withKC (s : EngineState) (d : List (String × ℚ)) :
    obsOf (withKC s d) = obsOf s := rfl

theorem open_session_withKC (host ip mac : String) (st : ℚ) (et : Option ℚ)
    (now : ℚ) (s : EngineState) (d : List (String × ℚ)) :
    open_session host ip mac st et now (withKC s d) =
      (withKC (open_session host ip mac st et now s).1 d,
       (open_session host ip mac st et now s).2) := rfl

theorem close_session_withKC (host ip mac : String) (now : ℚ) (et : Option ℚ)
    (s : EngineState) (d : List (String × ℚ)) :
    close_session host ip mac now et (withKC s d) =
      (withKC (close_session host ip mac now et s).1 d,
       (close_session host ip mac now et s).2) := rfl

theorem update_session_withKC (host ip mac : String) (now r j : ℚ)
    (s : EngineState) (d : List (String × ℚ)) :
    ∃ d2, update_session host ip mac now r j (withKC s d) =
      (withKC (update_session host ip mac now r j s).1 d2,
       (update_session host ip mac now r j s).2) := by
  simp only [update_session, withKC]
  by_cases h : r < 18 / 100 ∨
      now - (getScalar s.redis.lastUpdateVals (luKey host ip mac)).getD 0 > 120 + j
  · refine ⟨delScalar d (kcKey host ip mac), ?_⟩
    simp only [if_pos h]
  · refine ⟨putScalar d (kcKey host ip mac) now, ?_⟩
    simp only [if_neg h]

theorem update_withKC (host : String) (e : ArpEntry) (now r j : ℚ)
    (s : EngineState) (d : List (String × ℚ)) :
    ∃ d2, update host e now r j (withKC s d) =
      (withKC (update host e now r j s).1 d2, (update host e now r j s).2) := by
  simp only [update]
  have hm : memberActive (withKC s d) host (e.ip ++ "_" ++ e.mac) =
      memberActive s host (e.ip ++ "_" ++ e.mac) := rfl
  rw [hm]
  by_cases h : memberActive s host (e.ip ++ "_" ++ e.mac) = true
  · obtain ⟨d2, heq⟩ := update_session_withKC host e.ip e.mac now r j s d
    refine ⟨d2, ?_⟩
    simp only [if_pos h, heq]
    rfl
  · refine ⟨d, ?_⟩
    simp only [if_neg h, open_session_withKC]
    rfl

theorem closeAll_withKC (host : String) (now : ℚ) (keys : List String) :
    ∀ (s : EngineState) (d : List (String × ℚ)),
      closeAll host now keys (withKC s d) =
        (closeAll host now keys s).map (fun p => (withKC p.1 d, p.2)) := by
  induction keys with
  | nil => intro s d; rfl
  | cons k ks ih =>
    intro s d
    rw [closeAll, closeAll]
    cases hsplit : splitKeyOpt k with
    | none => rfl
    | some pr =>
      obtain ⟨ipp, macp⟩ := pr
      simp only [close_session_withKC, ih]
      cases closeAll host now ks (close_session host ipp macp now none s).1 with
      | error e2 => rfl
      | ok out => rfl

theorem finish_withKC (host : String) (now : ℚ) (s : EngineState)
    (d : List (String × ℚ)) :
    finish host now (withKC s d) =
      (finish host now s).map (fun p => (withKC p.1 d, p.2)) := by
  rw [finish, finish]
  rw [show (withKC s d).redis.sets = s.redis.sets from rfl]
  cases ha : getSet s.redis.sets (connectedKey host) with
  | none =>
    simp only
    cases hp : getSet s.redis.sets (tmpKey host) with
    | none => rfl
    | some p =>
      simp only
      cases hr : renameKey s.redis.sets (tmpKey host) (connectedKey host) with
      | none => rfl
      | some sets2 => rfl
  | some a =>
    simp only
    cases hp : getSet s.redis.sets (tmpKey host) with
    | none =>
      simp only
      rw [closeAll_withKC host now a s d]
      cases hca : closeAll host now a s with
      | error e2 => rfl
      | ok out => rfl
    | some p =>
      simp only
      rw [closeAll_withKC host now (a.filter fun k => !(p.contains k)) s d]
      cases hca : closeAll host now (a.filter fun k => !(p.contains k)) s with
      | error e2 => rfl
      | ok out =>
        obtain ⟨s1, evs1⟩ := out
        simp only [Except.map]
        rw [show (withKC s1 d).redis.sets = s1.redis.sets from rfl]
        cases hr : renameKey s1.redis.sets (tmpKey host) (connectedKey host) with
        | none => rfl
        | some sets2 => rfl

/-- C5: the debounced refresh fires exactly when the probability draw is
below 0.18 or the elapsed time since the stored `last_update` (0 when
absent) exceeds 120 plus the jitter draw; on refresh the matching rows get
`known_connected = now` with no open-session filter, the deferred value is
deleted and `last_update` is set to now; otherwise only the deferred
`known_connected = now` value is stored, `last_update` untouched — and that
deferred keyspace is never read back by any engine operation. -/
theorem update_session_debounce_contract (host ip mac : String) (now r j : ℚ)
    (s : EngineState) :
    ((update_session host ip mac now r j s).2 = [Event.dbRefresh ip mac now] ↔
      (r < 18 / 100 ∨
        now - (getScalar s.redis.lastUpdateVals (luKey host ip mac)).getD 0 > 120 + j)) ∧
    ((r < 18 / 100 ∨
        now - (getScalar s.redis.lastUpdateVals (luKey host ip mac)).getD 0 > 120 + j) →
      (update_session host ip mac now r j s).1.db = refreshKnown host ip mac now s.db ∧
      getScalar (update_session host ip mac now r j s).1.redis.lastUpdateVals
        (luKey host ip mac) = some now ∧
      getScalar (update_session host ip mac now r j s).1.redis.knownConnectedVals
        (kcKey host ip mac) = none) ∧
    (¬ (r < 18 / 100 ∨
        now - (getScalar s.redis.lastUpdateVals (luKey host ip mac)).getD 0 > 120 + j) →
      (update_session host ip mac now r j s).1.db = s.db ∧
      getScalar (update_session host ip mac now r j s).1.redis.knownConnectedVals
        (kcKey host ip mac) = some now ∧
      (update_session host ip mac now r j s).1.redis.lastUpdateVals =
        s.redis.lastUpdateVals) ∧
    (∀ rec : SessionRecord, rec.ip = ip → rec.mac = mac → rec.server_hostname = host →
      refreshFn host ip mac now rec = { rec with known_connected := now }) ∧
    (∀ (s2 : EngineState) (d : List (String × ℚ)),
      obsOf (update_session host ip mac now r j (withKC s2 d)).1 =
          obsOf (update_session host ip mac now r j s2).1 ∧
        (update_session host ip mac now r j (withKC s2 d)).2 =
          (update_session host ip mac now r j s2).2) ∧
    (∀ (host2 : String) (e2 : ArpEntry) (n2 r2 j2 : ℚ) (s2 : EngineState)
        (d : List (String × ℚ)),
      obsOf (update host2 e2 n2 r2 j2 (withKC s2 d)).1 =
          obsOf (update host2 e2 n2 r2 j2 s2).1 ∧
        (update host2 e2 n2 r2 j2 (withKC s2 d)).2 = (update host2 e2 n2 r2 j2 s2).2) ∧
    (∀ (host2 ip2 mac2 : String) (st2 : ℚ) (et2 : Option ℚ) (n2 : ℚ)
        (s2 : EngineState) (d : List (String × ℚ)),
      obsOf (open_session host2 ip2 mac2 st2 et2 n2 (withKC s2 d)).1 =
          obsOf (open_session host2 ip2 mac2 st2 et2 n2 s2).1 ∧
        (open_session host2 ip2 mac2 st2 et2 n2 (withKC s2 d)).2 =
          (open_session host2 ip2 mac2 st2 et2 n2 s2).2) ∧
    (∀ (host2 ip2 mac2 : String) (n2 : ℚ) (et2 : Option ℚ) (s2 : EngineState)
        (d : List (String × ℚ)),
      obsOf (close_session host2 ip2 mac2 n2 et2 (withKC s2 d)).1 =
          obsOf (close_session host2 ip2 mac2 n2 et2 s2).1 ∧
        (close_session host2 ip2 mac2 n2 et2 (withKC s2 d)).2 =
          (close_session host2 ip2 mac2 n2 et2 s2).2) ∧
    (∀ (host2 : String) (n2 : ℚ) (s2 : EngineState) (d : List (String × ℚ)),
      (finish host2 n2 (withKC s2 d)).map (fun p => (obsOf p.1, p.2)) =
        (finish host2 n2 s2).map (fun p => (obsOf p.1, p.2))) := by
  refine ⟨?_, ?_, ?_, ?_, ?_, ?_, ?_, ?_, ?_⟩
  · by_cases h : r < 18 / 100 ∨
        now - (getScalar s.redis.lastUpdateVals (luKey host ip mac)).getD 0 > 120 + j
    · simp only [update_session, if_pos h]
      exact ⟨fun _ => h, fun _ => trivial⟩
    · simp only [update_session, if_neg h]
      constructor
      · intro hev
        cases hev
      · intro hcond
        exact absurd hcond h
  · intro h
    simp only [update_session, if_pos h]
    exact ⟨trivial, lookupA_putAssoc_same _ _ _, lookupA_delAssoc_same _ _⟩
  · intro h
    simp only [update_session, if_neg h]
    exact ⟨trivial, lookupA_putAssoc_same _ _ _, trivial⟩
  · intro rec h1 h2 h3
    simp [refreshFn, h1, h2, h3]
  · intro s2 d
    obtain ⟨d2, heq⟩ := update_session_withKC host ip mac now r j s2 d
    rw [heq]
    exact ⟨rfl, rfl⟩
  · intro host2 e2 n2 r2 j2 s2 d
    obtain ⟨d2, heq⟩ := update_withKC host2 e2 n2 r2 j2 s2 d
    rw [heq]
    exact ⟨rfl, rfl⟩
  · intro host2 ip2 mac2 st2 et2 n2 s2 d
    rw [open_session_withKC]
    exact ⟨rfl, rfl⟩
  · intro host2 ip2 mac2 n2 et2 s2 d
    rw [close_session_withKC]
    exact ⟨rfl, rfl⟩
  · intro host2 n2 s2 d
    rw [finish_withKC]
    cases finish host2 n2 s2 with
    | error e2 => rfl
    | ok p => rfl

/-- Witness for C5: a concrete call whose elapsed time exceeds the
threshold refreshes and stamps the debounce state. -/
theorem update_session_debounce_contract_witness :
    ((1 : ℚ) / 2 < 18 / 100 ∨
      (200 : ℚ) - (getScalar emptyState.redis.lastUpdateVals
        (luKey "fw" "1" "a")).getD 0 > 120 + 5) ∧
    (update_session "fw" "1" "a" 200 (1 / 2) 5 emptyState).1.db =
      refreshKnown "fw" "1" "a" 200 emptyState.db ∧
    getScalar (update_session "fw" "1" "a" 200 (1 / 2) 5 emptyState).1.redis.lastUpdateVals
      (luKey "fw" "1" "a") = some 200 :=
  ⟨Or.inr (by norm_num [emptyState, getScalar, lookupA]),
   ((update_session_debounce_contract "fw" "1" "a" 200 (1 / 2) 5 emptyState).2.1
     (Or.inr (by norm_num [emptyState, getScalar, lookupA]))).1,
   (((update_session_debounce_contract "fw" "1" "a" 200 (1 / 2) 5 emptyState).2.1
     (Or.inr (by norm_num [emptyState, getScalar, lookupA]))).2).1⟩

/-! Query-string validation. -/

theorem foldl_hostname_none :
    ∀ (items : List (List Char)),
      (∀ item ∈ items, serverItemInvalid item = true) →
      items.foldl
        (fun acc item =>
          match pySplit '=' item with
          | [k, v] =>
            if String.mk k == "server" && is_valid_hostname (String.mk v)
            then some (String.mk v) else acc
          | _ => acc)
        none = none := by
  intro items
  induction items with
  | nil => intro _; rfl
  | cons it rest ih =>
    intro h
    have hit := h it (List.mem_cons_self it rest)
    have hrest : ∀ x ∈ rest, serverItemInvalid x = true :=
      fun x hx => h x (List.mem_cons_of_mem it hx)
    simp only [List.foldl_cons]
    cases hsp : pySplit '=' it with
    | nil => exact ih hrest
    | cons k t =>
      cases t with
      | nil => exact ih hrest
      | cons v t2 =>
        cases t2 with
        | nil =>
          rw [serverItemInvalid, hsp] at hit
          simp only at hit
          have hcond : (String.mk k == "server" && is_valid_hostname (String.mk v)) = false := by
            rw [← Bool.not_and] at hit
            exact (Bool.not_eq_true' _).mp hit
          simp only
          rw [hcond]
          exact ih hrest
        | cons c t3 => exact ih hrest

theorem findHostname_none (qs : String)
    (h : ∀ item ∈ pySplit '&' qs.data, serverItemInvalid item = true) :
    findHostname qs = none := by
  rw [findHostname]
  exact foldl_hostname_none (pySplit '&' qs.data) h

/-- C9: a request without a syntactically valid `server` query item is
answered with the rejection body and performs no reconciliation work at
all: the state (durable table and every redis keyspace) is returned
untouched and no event is emitted. -/
theorem invalid_hostname_rejected (qs : String) (input_lines : List String)
    (rand : List (ℚ × ℚ × ℚ)) (nowF : ℚ) (s : EngineState)
    (h : ∀ item ∈ pySplit '&' qs.data, serverItemInvalid item = true) :
    application qs input_lines rand nowF s = .ok (["Invalid hostname"], s, []) := by
  rw [application, findHostname_none qs h]

/-- Witness for C9: a request whose only `server` value fails validation is
rejected with the stores untouched. -/
theorem invalid_hostname_rejected_witness :
    (∀ item ∈ pySplit '&' ("server=-bad&x=1" : String).data,
      serverItemInvalid item = true) ∧
    application "server=-bad&x=1" ["h (1) at aa on em0"] [] 0 emptyState =
      .ok (["Invalid hostname"], emptyState, []) :=
  ⟨by decide,
   invalid_hostname_rejected "server=-bad&x=1" ["h (1) at aa on em0"] [] 0 emptyState
     (by decide)⟩

/-! Helpers for the update / finish contracts. -/

theorem update_session_sets (host ip mac : String) (now r j : ℚ) (s : EngineState) :
    (update_session host ip mac now r j s).1.redis.sets = s.redis.sets := by
  rw [update_session]
  split <;> rfl

theorem update_session_events (host ip mac : String) (now r j : ℚ) (s : EngineState) :
    (update_session host ip mac now r j s).2 = [Event.dbRefresh ip mac now] ∨
    (update_session host ip mac now r j s).2 = [Event.postponeCall ip mac] := by
  rw [update_session]
  split
  · exact Or.inl rfl
  · exact Or.inr rfl

theorem closeAll_ok (host : String) (now : ℚ) (keys : List String) :
    ∀ s : EngineState, (∀ k ∈ keys, (splitKeyOpt k).isSome = true) →
      ∃ s2 evs, closeAll host now keys s = .ok (s2, evs) ∧ s2.redis = s.redis ∧
        closeCallsOf evs = expectedCloseCalls keys := by
  induction keys with
  | nil => exact fun s _ => ⟨s, [], rfl, rfl, rfl⟩
  | cons k ks ih =>
    intro s hwf
    have hk := hwf k (List.mem_cons_self k ks)
    obtain ⟨pr, hpr⟩ := Option.isSome_iff_exists.mp hk
    obtain ⟨ipp, macp⟩ := pr
    obtain ⟨s2, evs, hok, hred, hcc⟩ :=
      ih (close_session host ipp macp now none s).1
        (fun k2 h2 => hwf k2 (List.mem_cons_of_mem k h2))
    refine ⟨s2, (close_session host ipp macp now none s).2 ++ evs, ?_, hred, ?_⟩
    · rw [closeAll, hpr]
      simp only
      rw [hok]
    · rw [closeCallsOf, List.filter_append]
      have h1 : (close_session host ipp macp now none s).2.filter isCloseCall =
          [Event.closeSessionCall ipp macp] := rfl
      rw [h1]
      have h2 : expectedCloseCalls (k :: ks) =
          Event.closeSessionCall ipp macp :: expectedCloseCalls ks := by
        rw [expectedCloseCalls, List.filterMap_cons, hpr]
        rfl
      rw [h2]
      rw [closeCallsOf] at hcc
      rw [hcc]
      rfl

/-- C2: `update(entry)` always adds the entry's presence key to PENDING;
if the key is absent from ACTIVE it performs a session open with start time
`now` (including the durable insert), if present it performs the debounced
refresh instead and emits no insert; and a key in PENDING survives
`finish` into ACTIVE, so a pair present in consecutive cycles never
triggers a second insert. -/
theorem update_contract (host : String) (e : ArpEntry) (now r j : ℚ) (s : EngineState) :
    getSet (update host e now r j s).1.redis.sets (tmpKey host) =
      some (saddList ((getSet s.redis.sets (tmpKey host)).getD [])
        (e.ip ++ "_" ++ e.mac)) ∧
    (memberActive s host (e.ip ++ "_" ++ e.mac) = false →
      (update host e now r j s).2 =
        Event.updateCall e.ip e.mac :: (open_session host e.ip e.mac now none now s).2 ∧
      (update host e now r j s).1.db = (open_session host e.ip e.mac now none now s).1.db ∧
      Event.dbInsert ⟨e.mac, e.ip, host, now, none, now⟩ ∈ (update host e now r j s).2) ∧
    (memberActive s host (e.ip ++ "_" ++ e.mac) = true →
      (update host e now r j s).2 =
        Event.updateCall e.ip e.mac :: (update_session host e.ip e.mac now r j s).2 ∧
      (update host e now r j s).1.db = (update_session host e.ip e.mac now r j s).1.db ∧
      ∀ rec : SessionRecord, Event.dbInsert rec ∉ (update host e now r j s).2) ∧
    (∀ (s1 : EngineState) (a p : List String) (now2 : ℚ),
      getSet s1.redis.sets (connectedKey host) = some a →
      getSet s1.redis.sets (tmpKey host) = some p →
      (e.ip ++ "_" ++ e.mac) ∈ p →
      (∀ k ∈ a.filter (fun k2 => !(p.contains k2)), (splitKeyOpt k).isSome = true) →
      ∃ s2 evs, finish host now2 s1 = .ok (s2, evs) ∧
        memberActive s2 host (e.ip ++ "_" ++ e.mac) = true) := by
  refine ⟨?_, ?_, ?_, ?_⟩
  · rw [update]
    simp only
    by_cases hm : memberActive s host (e.ip ++ "_" ++ e.mac) = true
    · simp only [if_pos hm, update_session_sets]
      exact lookupA_putAssoc_same _ _ _
    · simp only [if_neg hm]
      exact lookupA_putAssoc_same _ _ _
  · intro hm
    rw [update]
    simp only [hm, Bool.false_eq_true, if_false]
    refine ⟨trivial, trivial, ?_⟩
    simp [open_session]
  · intro hm
    rw [update]
    simp only [if_pos hm]
    refine ⟨trivial, trivial, ?_⟩
    intro rec hmem
    rcases update_session_events host e.ip e.mac now r j s with hev | hev <;>
      rw [hev] at hmem <;> simp at hmem
  · intro s1 a p now2 ha hp hmemp hwf
    obtain ⟨sc, evsc, hok, hredis, hcc⟩ :=
      closeAll_ok host now2 (a.filter fun k2 => !(p.contains k2)) s1 hwf
    have hsets : sc.redis.sets = s1.redis.sets := congrArg RedisState.sets hredis
    refine ⟨withSets sc (putSet (delKey sc.redis.sets (tmpKey host)) (connectedKey host) p),
      evsc, ?_, ?_⟩
    · rw [finish, ha]
      simp only
      rw [hp]
      simp only
      rw [hok]
      simp only
      rw [show renameKey sc.redis.sets (tmpKey host) (connectedKey host) =
          some (putSet (delKey sc.redis.sets (tmpKey host)) (connectedKey host) p) from by
        rw [renameKey, getSet, ← getSet, hsets, hp]]
    · rw [memberActive]
      rw [show getSet (withSets sc (putSet (delKey sc.redis.sets (tmpKey host))
          (connectedKey host) p)).redis.sets (connectedKey host) =
          some p from lookupA_putAssoc_same _ _ _]
      simp only [Option.getD_some]
      exact List.elem_iff.mpr hmemp

/-- Witness for C2: one concrete update in each classification branch plus
a concrete finish that keeps the pending key active. -/
theorem update_contract_witness :
    (memberActive emptyState "fw" ("10" ++ "_" ++ "aa") = false) ∧
    Event.dbInsert ⟨"aa", "10", "fw", 5, none, 5⟩ ∈
      (update "fw" ⟨"h1", "10", "aa", "em0"⟩ 5 1 0 emptyState).2 ∧
    (∃ s2 evs,
      finish "fw" 7
        ⟨[], ⟨[("macdb-connected-fw", ["10_aa"]), ("macdb-connected-fw-tmp", ["10_aa"])],
          [], [], []⟩⟩ = .ok (s2, evs) ∧
      memberActive s2 "fw" ("10" ++ "_" ++ "aa") = true) :=
  ⟨by decide,
   ((update_contract "fw" ⟨"h1", "10", "aa", "em0"⟩ 5 1 0 emptyState).2.1 (by decide)).2.2,
   (update_contract "fw" ⟨"h1", "10", "aa", "em0"⟩ 5 1 0 emptyState).2.2.2
     ⟨[], ⟨[("macdb-connected-fw", ["10_aa"]), ("macdb-connected-fw-tmp", ["10_aa"])],
       [], [], []⟩⟩
     ["10_aa"] ["10_aa"] 7 (by decide) (by decide) (by decide) (by decide)⟩

/-- C1: the four cases of `finish`. Neither set: no-op. Only PENDING:
rename, nothing closed. Both: one `close_session` per key of the set
difference ACTIVE minus PENDING (each key split into ip and mac), then the
rename. Only ACTIVE: one `close_session` per ACTIVE key and ACTIVE is
deleted. -/
theorem finish_cases_contract (host : String) (now : ℚ) (s : EngineState) :
    (getSet s.redis.sets (connectedKey host) = none →
      getSet s.redis.sets (tmpKey host) = none →
      finish host now s = .ok (s, [])) ∧
    (∀ p : List String, getSet s.redis.sets (connectedKey host) = none →
      getSet s.redis.sets (tmpKey host) = some p →
      ∃ s2, finish host now s = .ok (s2, []) ∧
        getSet s2.redis.sets (connectedKey host) = some p ∧
        getSet s2.redis.sets (tmpKey host) = none ∧
        s2.db = s.db) ∧
    (∀ a p : List String, getSet s.redis.sets (connectedKey host) = some a →
      getSet s.redis.sets (tmpKey host) = some p →
      (∀ k ∈ a.filter (fun k2 => !(p.contains k2)), (splitKeyOpt k).isSome = true) →
      ∃ s2 evs, finish host now s = .ok (s2, evs) ∧
        closeCallsOf evs = expectedCloseCalls (a.filter (fun k2 => !(p.contains k2))) ∧
        (a.Nodup → (a.filter (fun k2 => !(p.contains k2))).Nodup) ∧
        getSet s2.redis.sets (connectedKey host) = some p ∧
        getSet s2.redis.sets (tmpKey host) = none) ∧
    (∀ a : List String, getSet s.redis.sets (connectedKey host) = some a →
      getSet s.redis.sets (tmpKey host) = none →
      (∀ k ∈ a, (splitKeyOpt k).isSome = true) →
      ∃ s2 evs, finish host now s = .ok (s2, evs) ∧
        closeCallsOf evs = expectedCloseCalls a ∧
        getSet s2.redis.sets (connectedKey host) = none ∧
        getSet s2.redis.sets (tmpKey host) = none) := by
  refine ⟨?_, ?_, ?_, ?_⟩
  · intro h1 h2
    rw [finish, h1]
    simp only
    rw [h2]
  · intro p h1 h2
    refine ⟨withSets s (putSet (delKey s.redis.sets (tmpKey host)) (connectedKey host) p),
      ?_, ?_, ?_, rfl⟩
    · rw [finish, h1]
      simp only
      rw [h2]
      simp only
      rw [show renameKey s.redis.sets (tmpKey host) (connectedKey host) =
          some (putSet (delKey s.redis.sets (tmpKey host)) (connectedKey host) p) from by
        rw [renameKey, getSet, ← getSet, h2]]
    · exact lookupA_putAssoc_same _ _ _
    · rw [show getSet (withSets s (putSet (delKey s.redis.sets (tmpKey host))
          (connectedKey host) p)).redis.sets (tmpKey host) =
          getSet (delKey s.redis.sets (tmpKey host)) (tmpKey host) from
        lookupA_putAssoc_ne _ _ (tmpKey_ne_connectedKey host)]
      exact lookupA_delAssoc_same _ _
  · intro a p h1 h2 hwf
    obtain ⟨sc, evsc, hok, hredis, hcc⟩ :=
      closeAll_ok host now (a.filter fun k2 => !(p.contains k2)) s hwf
    have hsets : sc.redis.sets = s.redis.sets := congrArg RedisState.sets hredis
    refine ⟨withSets sc (putSet (delKey sc.redis.sets (tmpKey host)) (connectedKey host) p),
      evsc, ?_, hcc, fun hnd => hnd.filter _, ?_, ?_⟩
    · rw [finish, h1]
      simp only
      rw [h2]
      simp only
      rw [hok]
      simp only
      rw [show renameKey sc.redis.sets (tmpKey host) (connectedKey host) =
          some (putSet (delKey sc.redis.sets (tmpKey host)) (connectedKey host) p) from by
        rw [renameKey, getSet, ← getSet, hsets, h2]]
    · exact lookupA_putAssoc_same _ _ _
    · rw [show getSet (withSets sc (putSet (delKey sc.redis.sets (tmpKey host))
          (connectedKey host) p)).redis.sets (tmpKey host) =
          getSet (delKey sc.redis.sets (tmpKey host)) (tmpKey host) from
        lookupA_putAssoc_ne _ _ (tmpKey_ne_connectedKey host)]
      exact lookupA_delAssoc_same _ _
  · intro a h1 h2 hwf
    obtain ⟨sc, evsc, hok, hredis, hcc⟩ := closeAll_ok host now a s hwf
    have hsets : sc.redis.sets = s.redis.sets := congrArg RedisState.sets hredis
    refine ⟨withSets sc (delKey sc.redis.sets (connectedKey host)), evsc, ?_, hcc, ?_, ?_⟩
    · rw [finish, h1]
      simp only
      rw [h2]
      simp only
      rw [hok]
    · exact lookupA_delAssoc_same _ _
    · rw [show getSet (withSets sc (delKey sc.redis.sets (connectedKey host))).redis.sets
          (tmpKey host) = getSet sc.redis.sets (tmpKey host) from
        lookupA_delAssoc_ne _ (tmpKey_ne_connectedKey host)]
      rw [hsets]
      exact h2

/-- Witness for C1: a concrete finish with both sets present closes
exactly the disappeared key and renames PENDING to ACTIVE. -/
theorem finish_cases_contract_witness :
    (getSet (⟨[], ⟨[("macdb-connected-fw", ["1_a", "2_b"]),
        ("macdb-connected-fw-tmp", ["2_b"])], [], [], []⟩⟩ : EngineState).redis.sets
      (connectedKey "fw") = some ["1_a", "2_b"]) ∧
    (∀ k ∈ (["1_a", "2_b"].filter (fun k2 => !((["2_b"] : List String).contains k2))),
      (splitKeyOpt k).isSome = true) ∧
    (∃ s2 evs,
      finish "fw" 7
        (⟨[], ⟨[("macdb-connected-fw", ["1_a", "2_b"]),
          ("macdb-connected-fw-tmp", ["2_b"])], [], [], []⟩⟩ : EngineState) =
        .ok (s2, evs) ∧
      closeCallsOf evs =
        expectedCloseCalls (["1_a", "2_b"].filter
          (fun k2 => !((["2_b"] : List String).contains k2))) ∧
      ((["1_a", "2_b"] : List String).Nodup →
        (["1_a", "2_b"].filter (fun k2 => !((["2_b"] : List String).contains k2))).Nodup) ∧
      getSet s2.redis.sets (connectedKey "fw") = some ["2_b"] ∧
      getSet s2.redis.sets (tmpKey "fw") = none) :=
  ⟨by decide, by decide,
   (finish_cases_contract "fw" 7
       (⟨[], ⟨[("macdb-connected-fw", ["1_a", "2_b"]),
         ("macdb-connected-fw-tmp", ["2_b"])], [], [], []⟩⟩ : EngineState)).2.2.1
     ["1_a", "2_b"] ["2_b"] (by decide) (by decide) (by decide)⟩

/-! First-cycle analysis. -/

theorem getSet_putSet_ne (rs : List (String × List String)) {k k2 : String}
    (v : List String) (h : ¬ k2 = k) : getSet (putSet rs k v) k2 = getSet rs k2 :=
  lookupA_putAssoc_ne rs v h

theorem openCountBy_zero_of (q : SessionRecord → Bool) (db : List SessionRecord)
    (h : ∀ r ∈ db, q r = false) : openCountBy q db = 0 := by
  induction db with
  | nil => rfl
  | cons r rest ih =>
    rw [openCountBy_cons]
    have hr : q r = false := h r (List.mem_cons_self r rest)
    rw [ih fun r2 h2 => h r2 (List.mem_cons_of_mem r h2)]
    simp [hr]

theorem runEntriesLoop_fresh (host : String) :
    ∀ (items : List (ArpEntry × ℚ × ℚ × ℚ)) (s0 : EngineState),
      getSet s0.redis.sets (connectedKey host) = none →
      (∀ rec ∈ s0.db, rec.server_hostname = host → rec.end_time = none →
        (∀ it ∈ items, ¬ rec.ip = it.1.ip ∧ ¬ rec.mac = it.1.mac)) →
      (items.map (fun it => it.1.ip)).Nodup →
      (items.map (fun it => it.1.mac)).Nodup →
      (∀ it ∈ items, ¬ it.1.mac = "(incomplete)") →
      getSet (runEntriesLoop host items s0).1.redis.sets (connectedKey host) = none ∧
      ((runEntriesLoop host items s0).2).filter isCloseCall = [] ∧
      openCountHost host (runEntriesLoop host items s0).1.db =
        openCountHost host s0.db + items.length := by
  intro items
  induction items with
  | nil =>
    intro s0 hA _ _ _ _
    exact ⟨hA, rfl, rfl⟩
  | cons item rest ih =>
    obtain ⟨e, tnow, r, j⟩ := item
    intro s0 hA hB hnd1 hnd2 hinc
    have hincHead : ¬ e.mac = "(incomplete)" :=
      hinc (e, tnow, r, j) (List.mem_cons_self _ rest)
    have hincB : (e.mac == "(incomplete)") = false := by simp [hincHead]
    have hnoclose : ∀ rec ∈ s0.db,
        ((fun rec => rec.ip == e.ip && rec.server_hostname == host &&
          rec.end_time.isNone) rec = false) ∧
        ((fun rec => rec.mac == e.mac && rec.server_hostname == host &&
          rec.end_time.isNone) rec = false) := by
      intro rec hrec
      by_cases hh : rec.server_hostname = host
      · by_cases ho : rec.end_time = none
        · obtain ⟨hip, hmac⟩ :=
            hB rec hrec hh ho (e, tnow, r, j) (List.mem_cons_self _ rest)
          constructor <;> simp [hip, hmac]
        · have hno : rec.end_time.isNone = false := by
            cases het : rec.end_time with
            | none => exact absurd het ho
            | some t0 => rfl
          constructor <;> simp [hno]
      · constructor <;> simp [hh]
    have hdb1 : (open_session host e.ip e.mac tnow none tnow s0).1.db =
        s0.db ++ [⟨e.mac, e.ip, host, tnow, none, tnow⟩] := by
      show closeOpenByMac host e.mac tnow (closeOpenByIp host e.ip tnow s0.db) ++ _ = _
      rw [closeOpenByIp, closeIf_eq_self _ _ _ (fun rec h => (hnoclose rec h).1)]
      rw [closeOpenByMac, closeIf_eq_self _ _ _ (fun rec h => (hnoclose rec h).2)]
    have hmem : memberActive s0 host (e.ip ++ "_" ++ e.mac) = false := by
      rw [memberActive, hA]
      rfl
    have hstep1 : (update host e tnow r j s0).1.db =
        s0.db ++ [⟨e.mac, e.ip, host, tnow, none, tnow⟩] := by
      rw [update]
      simp only [hmem, Bool.false_eq_true, if_false]
      exact hdb1
    have hstep2 : getSet (update host e tnow r j s0).1.redis.sets (connectedKey host) =
        none := by
      rw [update]
      simp only [hmem, Bool.false_eq_true, if_false]
      rw [getSet_putSet_ne _ _ (connectedKey_ne_tmpKey host)]
      exact hA
    have hstep3 : (update host e tnow r j s0).2.filter isCloseCall = [] := by
      rw [update]
      simp only [hmem, Bool.false_eq_true, if_false]
      rfl
    have hnd1s : e.ip ∉ rest.map (fun it => it.1.ip) ∧
        (rest.map (fun it => it.1.ip)).Nodup := by
      rw [List.map_cons] at hnd1
      exact List.nodup_cons.mp hnd1
    have hnd2s : e.mac ∉ rest.map (fun it => it.1.mac) ∧
        (rest.map (fun it => it.1.mac)).Nodup := by
      rw [List.map_cons] at hnd2
      exact List.nodup_cons.mp hnd2
    have hipNotin : e.ip ∉ rest.map (fun it => it.1.ip) := hnd1s.1
    have hmacNotin : e.mac ∉ rest.map (fun it => it.1.mac) := hnd2s.1
    have hB2 : ∀ rec ∈ (update host e tnow r j s0).1.db,
        rec.server_hostname = host → rec.end_time = none →
        (∀ it ∈ rest, ¬ rec.ip = it.1.ip ∧ ¬ rec.mac = it.1.mac) := by
      intro rec hrec hh ho it hit
      rw [hstep1] at hrec
      rcases List.mem_append.mp hrec with hin | hin
      · exact hB rec hin hh ho it (List.mem_cons_of_mem _ hit)
      · have heq : rec = ⟨e.mac, e.ip, host, tnow, none, tnow⟩ :=
          List.mem_singleton.mp hin
        subst heq
        constructor
        · intro hc
          have hc2 : e.ip = it.1.ip := hc
          exact hipNotin (hc2 ▸ List.mem_map_of_mem (fun it => it.1.ip) hit)
        · intro hc
          have hc2 : e.mac = it.1.mac := hc
          exact hmacNotin (hc2 ▸ List.mem_map_of_mem (fun it => it.1.mac) hit)
    obtain ⟨ih1, ih2, ih3⟩ := ih (update host e tnow r j s0).1 hstep2 hB2
      hnd1s.2 hnd2s.2 (fun it hit => hinc it (List.mem_cons_of_mem _ hit))
    have hcnt1 : openCountHost host (update host e tnow r j s0).1.db =
        openCountHost host s0.db + 1 := by
      rw [hstep1]
      show openCountBy (fun rec => rec.server_hostname == host) (s0.db ++ _) = _
      rw [openCountBy_append, openCountBy_cons]
      simp [openCountBy, openCountHost]
    rw [runEntriesLoop]
    simp only [hincB, Bool.false_eq_true, if_false]
    refine ⟨ih1, ?_, ?_⟩
    · rw [List.filter_append, hstep3, ih2]
      rfl
    · rw [ih3, hcnt1, List.length_cons]
      omega

/-- C6 (amended): a first cycle for a source with no prior baseline and no
prior rows of that source, whose entries have pairwise-distinct ips and
pairwise-distinct macs and none equal to the incomplete sentinel, yields
exactly one open row per entry and no close call.  (Without the
distinctness proviso the claim fails, see the counterexample.) -/
theorem first_cycle_opens_amended (host : String)
    (items : List (ArpEntry × ℚ × ℚ × ℚ)) (s0 : EngineState) (nowF : ℚ)
    (h0 : ∀ rec ∈ s0.db, ¬ rec.server_hostname = host)
    (h1 : getSet s0.redis.sets (connectedKey host) = none)
    (h2 : (items.map (fun it => it.1.ip)).Nodup)
    (h3 : (items.map (fun it => it.1.mac)).Nodup)
    (h4 : ∀ it ∈ items, ¬ it.1.mac = "(incomplete)") :
    ∃ s2 evs, finish host nowF (runEntriesLoop host items s0).1 = .ok (s2, evs) ∧
      openCountHost host s2.db = items.length ∧
      evs = [] ∧
      ((runEntriesLoop host items s0).2).filter isCloseCall = [] := by
  obtain ⟨hA2, hevs, hcnt⟩ := runEntriesLoop_fresh host items s0 h1
    (fun rec hr hh _ => absurd hh (h0 rec hr)) h2 h3 h4
  have hzero : openCountHost host s0.db = 0 := by
    show openCountBy (fun rec => rec.server_hostname == host) s0.db = 0
    exact openCountBy_zero_of _ s0.db (fun rec hr => by simp [h0 rec hr])
  have hcnt2 : openCountHost host (runEntriesLoop host items s0).1.db = items.length := by
    rw [hcnt, hzero]
    omega
  cases hp : getSet (runEntriesLoop host items s0).1.redis.sets (tmpKey host) with
  | none =>
    refine ⟨(runEntriesLoop host items s0).1, [], ?_, hcnt2, rfl, hevs⟩
    rw [finish, hA2]
    simp only
    rw [hp]
  | some p =>
    refine ⟨withSets (runEntriesLoop host items s0).1
        (putSet (delKey (runEntriesLoop host items s0).1.redis.sets (tmpKey host))
          (connectedKey host) p), [], ?_, hcnt2, rfl, hevs⟩
    rw [finish, hA2]
    simp only
    rw [hp]
    simp only
    rw [show renameKey (runEntriesLoop host items s0).1.redis.sets (tmpKey host)
        (connectedKey host) =
        some (putSet (delKey (runEntriesLoop host items s0).1.redis.sets (tmpKey host))
          (connectedKey host) p) from by
      rw [renameKey, getSet, ← getSet, hp]]

/-- Counterexample for C6: a first-ever cycle of two valid entries sharing
one ip (as in a real arp table after a DHCP reassignment) ends with one
open row, not two: the second open closes the first through the
independent ip filter. -/
theorem first_cycle_opens_cex :
    (match finish "fw" 9 (runEntriesLoop "fw"
        [(⟨"h1", "10", "aa", "em0"⟩, 5, 1, 0), (⟨"h2", "10", "bb", "em0"⟩, 6, 1, 0)]
        emptyState).1 with
      | Except.ok p => openCountHost "fw" p.1.db
      | Except.error _ => 1000) = 1 ∧
    ¬ ((match finish "fw" 9 (runEntriesLoop "fw"
        [(⟨"h1", "10", "aa", "em0"⟩, 5, 1, 0), (⟨"h2", "10", "bb", "em0"⟩, 6, 1, 0)]
        emptyState).1 with
      | Except.ok p => openCountHost "fw" p.1.db
      | Except.error _ => 1000) = 2) :=
  ⟨by decide, by decide⟩

/-- Witness for the amended C6 on two entries with distinct ips and macs. -/
theorem first_cycle_opens_amended_witness :
    ((([(⟨"h1", "10", "aa", "em0"⟩, (5 : ℚ), (1 : ℚ), (0 : ℚ)),
        (⟨"h2", "11", "bb", "em0"⟩, 6, 1, 0)] :
        List (ArpEntry × ℚ × ℚ × ℚ)).map (fun it => it.1.ip)).Nodup) ∧
    (∃ s2 evs, finish "fw" 9 (runEntriesLoop "fw"
        [(⟨"h1", "10", "aa", "em0"⟩, 5, 1, 0), (⟨"h2", "11", "bb", "em0"⟩, 6, 1, 0)]
        emptyState).1 = .ok (s2, evs) ∧
      openCountHost "fw" s2.db =
        ([(⟨"h1", "10", "aa", "em0"⟩, (5 : ℚ), (1 : ℚ), (0 : ℚ)),
          (⟨"h2", "11", "bb", "em0"⟩, 6, 1, 0)] :
          List (ArpEntry × ℚ × ℚ × ℚ)).length ∧
      evs = [] ∧
      ((runEntriesLoop "fw"
        [(⟨"h1", "10", "aa", "em0"⟩, 5, 1, 0), (⟨"h2", "11", "bb", "em0"⟩, 6, 1, 0)]
        emptyState).2).filter isCloseCall = []) :=
  ⟨by decide,
   first_cycle_opens_amended "fw"
     [(⟨"h1", "10", "aa", "em0"⟩, 5, 1, 0), (⟨"h2", "11", "bb", "em0"⟩, 6, 1, 0)]
     emptyState 9 (by decide) (by decide) (by decide) (by decide) (by decide)⟩

end MacDb
